import Mathlib

/-!
# Verification of gmail-download's MIME-body resolution and thread aggregation

Shallow embedding of `src/gmail_download/gmail_download.py`.  The embedding
covers:

* the MIME part tree and `get_next_part` (the part walker);
* `parse_body` (body decoder) including its URL-safe base64 transport decode,
  with text payloads represented by their UTF-8 byte sequences (Python's
  `str.encode('utf-8')` / `bytes.decode('utf-8')` pair is the identity on that
  representation, so only the base64 layer is modelled explicitly);
* the two-pass thread aggregation, the full-text rendering and the write step
  inside `gmail_query.query`;
* the search-query string construction at the top of `query`.

Fallible Python operations (dict subscripts that can raise `KeyError`,
`list[0]` on an empty list, base64/unicode decode errors, `datetime.date + int`)
become `Option`/`Except` values; Python exceptions that `parse_body` swallows
correspond to `none` results consumed by its catch-all branch.
-/

namespace GmailDownload

/-! ## MIME part tree

A Gmail API message part is a dict with a `mimeType` string, an optional
`body.data` payload (the URL-safe base64 string), and an optional `parts`
entry whose value the source treats as either a single part dict or a list of
part dicts (`get_next_part` coerces the former to a one-element list).
-/

mutual

/-- A MIME part: `mimeType`, optional `body.data` payload, optional `parts`. -/
inductive Part : Type where
  | mk (mimeType : String) (bodyData : Option String) (parts : Option PTree) : Part

/-- The duck-typed value `get_next_part` receives: a single part dict or a
list of part dicts (`type(msg) is not list` in the source). -/
inductive PTree : Type where
  | single (p : Part) : PTree
  | plist (ps : List Part) : PTree

end

/-- Content-type label of a part (`msg['mimeType']`). -/
def Part.mimeType : Part → String
  | .mk t _ _ => t

/-- Transport-encoded payload of a part (`msg['body']['data']`), `none` when
either key is missing. -/
def Part.bodyData : Part → Option String
  | .mk _ b _ => b

/-- Children of a part (`msg['parts']`), `none` when the key is missing. -/
def Part.parts : Part → Option PTree
  | .mk _ _ p => p

/-- `if type(parts) is not list: parts = [parts]` — coerce a singular child to
a one-element list. -/
def coerceList : PTree → List Part
  | .single p => [p]
  | .plist ps => ps

/-- The acceptance test applied to one node: membership of its content type in
`allowed`, inverted when `negation` is set (source lines 346–349 / 357–360). -/
def partCriteria (negation : Bool) (allowed : List String) (m : Part) : Bool :=
  if negation then !(allowed.contains m.mimeType) else allowed.contains m.mimeType

/-- Embedding of `gmail_query.get_next_part` with `search='mimeType'` and
`what='parts'` (the defaults, and the only values used by `parse_body`).
Returns `none` where the Python raises: `msg['parts']` on a node without the
key (`KeyError`) and `msg[0]` on an empty list (`IndexError`).

Note the source's list branch: inside the loop it computes `criteria` (which
honours `negation`) but the executed test is the plain `m[search] in allowed`,
so the negation flag has no effect on that branch. -/
def get_next_part (msg : PTree) (negation : Bool)
    (allowed : List String) : Option (List Part × Bool) :=
  match msg with
  | .single m =>
    if partCriteria negation allowed m then
      some ([m], true)
    else
      match m.parts with
      | none => none
      | some t => some (coerceList t, false)
  | .plist ms =>
    if ms.any (fun m => allowed.contains m.mimeType) then
      some (ms, true)
    else
      match ms with
      | [] => none
      | m0 :: _ =>
        match m0.parts with
        | none => none
        | some t => some (coerceList t, false)

/-- C1: on a non-list MIME node, `get_next_part` returns `([node], True)` when
the node's content type passes the acceptance test (membership in `allowed`,
inverted under `negation`), and otherwise returns the node's children coerced
to a list, paired with `False`. -/
theorem get_next_part_single (m : Part) (negation : Bool) (allowed : List String) :
    (partCriteria negation allowed m = true →
      get_next_part (PTree.single m) negation allowed = some ([m], true))
    ∧ (partCriteria negation allowed m = false →
      ∀ t, m.parts = some t →
        get_next_part (PTree.single m) negation allowed = some (coerceList t, false)) := by
  constructor
  · intro h
    simp [get_next_part, h]
  · intro h t ht
    simp [get_next_part, h, ht]

/-- Witness for `get_next_part_single` at concrete nodes: a matching
`text/plain` leaf (first conjunct) and a non-matching node with a singular
child (second conjunct). -/
theorem get_next_part_single_witness :
    get_next_part (PTree.single (Part.mk "text/plain" none none)) false
        ["text/html", "text/plain"]
      = some ([Part.mk "text/plain" none none], true)
    ∧ get_next_part
        (PTree.single (Part.mk "multipart/alternative" none
          (some (PTree.single (Part.mk "text/plain" (some "aGk=") none)))))
        false ["text/html", "text/plain"]
      = some ([Part.mk "text/plain" (some "aGk=") none], false) :=
  ⟨(get_next_part_single (Part.mk "text/plain" none none) false _).1 (by decide),
   (get_next_part_single (Part.mk "multipart/alternative" none
      (some (PTree.single (Part.mk "text/plain" (some "aGk=") none)))) false _).2
    (by decide) _ rfl⟩

/-- C2: on a list of siblings with `negation=True`, the source returns the
whole list with a success flag as soon as some sibling's content type is in
`allowed` — the *non-inverted* test — even though every sibling fails the
inverted acceptance test.  (The loop body computes the negation-aware
`criteria` and then ignores it.)  Evaluated at the failing input: one sibling
of type `text/plain`, `negation=True`, default `allowed`. -/
theorem get_next_part_negation_ignored_on_lists :
    get_next_part
        (PTree.plist [Part.mk "text/plain" none
          (some (PTree.plist [Part.mk "text/html" none none]))])
        true ["text/html", "text/plain"]
      = some ([Part.mk "text/plain" none
          (some (PTree.plist [Part.mk "text/html" none none]))], true)
    ∧ ∀ m ∈ [Part.mk "text/plain" none
          (some (PTree.plist [Part.mk "text/html" none none]))],
        partCriteria true ["text/html", "text/plain"] m = false := by
  constructor
  · rfl
  · decide

/-! ## URL-safe base64 transport encoding

`parse_body` decodes `part['body']['data']` with
`base64.urlsafe_b64decode(str(body).encode('utf-8')).decode('utf-8')`.
Text payloads are represented by their UTF-8 byte sequences (`List Nat`,
entries below 256); the `str`/`bytes` UTF-8 conversions surrounding the
base64 step are a mutually inverse pair and are not modelled separately.
The decoder below accepts the RFC 4648 URL-safe alphabet with mandatory
padding, which is exactly the language of the encoder's outputs. -/

def b64Alphabet : List Char :=
  "ABCDEFGHIJKLMNOPQRSTUVWXYZabcdefghijklmnopqrstuvwxyz0123456789-_".toList

/-- Character for a six-bit group. -/
def b64char (n : Nat) : Char := b64Alphabet.getD n '='

/-- Six-bit group for a character, `none` outside the alphabet. -/
def b64index (c : Char) : Option Nat := b64Alphabet.findIdx? (fun x => x = c)

/-- URL-safe base64 encoding of a byte sequence, three bytes to four
characters, `'='`-padded. -/
def encodeBytes : List Nat → List Char
  | [] => []
  | [b1] => [b64char (b1 / 4), b64char (b1 % 4 * 16), '=', '=']
  | [b1, b2] =>
    [b64char (b1 / 4), b64char (b1 % 4 * 16 + b2 / 16), b64char (b2 % 16 * 4), '=']
  | b1 :: b2 :: b3 :: rest =>
    b64char (b1 / 4) :: b64char (b1 % 4 * 16 + b2 / 16) ::
      b64char (b2 % 16 * 4 + b3 / 64) :: b64char (b3 % 64) :: encodeBytes rest

/-- URL-safe base64 decoding, `none` on any input `urlsafe_b64decode` rejects
(wrong length, bad padding, character outside the alphabet). -/
def decodeChars : List Char → Option (List Nat)
  | [] => some []
  | c1 :: c2 :: c3 :: c4 :: rest =>
    if c3 = '=' then
      if c4 = '=' ∧ rest = [] then
        (b64index c1).bind fun s1 =>
          (b64index c2).map fun s2 => [s1 * 4 + s2 / 16]
      else none
    else if c4 = '=' then
      if rest = [] then
        (b64index c1).bind fun s1 =>
          (b64index c2).bind fun s2 =>
            (b64index c3).map fun s3 =>
              [s1 * 4 + s2 / 16, s2 % 16 * 16 + s3 / 4]
      else none
    else
      (b64index c1).bind fun s1 =>
        (b64index c2).bind fun s2 =>
          (b64index c3).bind fun s3 =>
            (b64index c4).bind fun s4 =>
              (decodeChars rest).map fun tl =>
                (s1 * 4 + s2 / 16) :: (s2 % 16 * 16 + s3 / 4) :: (s3 % 4 * 64 + s4) :: tl
  | _ => none

/-- Transport encoding on the byte representation of a text payload. -/
def pyUrlsafeB64Encode (bs : List Nat) : String := String.mk (encodeBytes bs)

/-- The body decoder's transport-decode step. -/
def pyUrlsafeB64Decode (s : String) : Option (List Nat) := decodeChars s.toList

theorem b64index_b64char : ∀ n, n < 64 → b64index (b64char n) = some n := by decide

theorem b64char_ne_pad : ∀ n, n < 64 → b64char n ≠ '=' := by decide

/-- Per-chunk inverse: decoding the encoder's output recovers the bytes. -/
theorem decodeChars_encodeBytes (bs : List Nat) (h : ∀ b ∈ bs, b < 256) :
    decodeChars (encodeBytes bs) = some bs := by
  induction bs using encodeBytes.induct with
  | case1 => simp [encodeBytes, decodeChars]
  | case2 b1 =>
    have h1 : b1 < 256 := h b1 (by simp)
    have e1 : b1 / 4 * 4 + b1 % 4 * 16 / 16 = b1 := by omega
    simp [encodeBytes, decodeChars, b64index_b64char (b1 / 4) (by omega),
      b64index_b64char (b1 % 4 * 16) (by omega), e1]
    omega
  | case3 b1 b2 =>
    have h1 : b1 < 256 := h b1 (by simp)
    have h2 : b2 < 256 := h b2 (by simp)
    have e1 : b1 / 4 * 4 + (b1 % 4 * 16 + b2 / 16) / 16 = b1 := by omega
    have e2 : (b1 % 4 * 16 + b2 / 16) % 16 * 16 + b2 % 16 * 4 / 4 = b2 := by omega
    simp [encodeBytes, decodeChars, b64char_ne_pad (b2 % 16 * 4) (by omega),
      b64index_b64char (b1 / 4) (by omega),
      b64index_b64char (b1 % 4 * 16 + b2 / 16) (by omega),
      b64index_b64char (b2 % 16 * 4) (by omega), e1, e2]
    omega
  | case4 b1 b2 b3 rest ih =>
    have h1 : b1 < 256 := h b1 (by simp)
    have h2 : b2 < 256 := h b2 (by simp)
    have h3 : b3 < 256 := h b3 (by simp)
    have hrest : ∀ b ∈ rest, b < 256 := fun b hb => h b (by simp [hb])
    have e1 : b1 / 4 * 4 + (b1 % 4 * 16 + b2 / 16) / 16 = b1 := by omega
    have e2 : (b1 % 4 * 16 + b2 / 16) % 16 * 16 + (b2 % 16 * 4 + b3 / 64) / 4 = b2 := by
      omega
    have e3 : (b2 % 16 * 4 + b3 / 64) % 4 * 64 + b3 % 64 = b3 := by omega
    simp [encodeBytes, decodeChars,
      b64char_ne_pad (b2 % 16 * 4 + b3 / 64) (by omega),
      b64char_ne_pad (b3 % 64) (by omega),
      b64index_b64char (b1 / 4) (by omega),
      b64index_b64char (b1 % 4 * 16 + b2 / 16) (by omega),
      b64index_b64char (b2 % 16 * 4 + b3 / 64) (by omega),
      b64index_b64char (b3 % 64) (by omega), ih hrest, e1, e2, e3]

/-- C5: decoding a transport-encoded text payload (represented by its UTF-8
bytes) through the body decoder's decode step round-trips to the original. -/
theorem transport_roundtrip (bs : List Nat) (h : ∀ b ∈ bs, b < 256) :
    pyUrlsafeB64Decode (pyUrlsafeB64Encode bs) = some bs :=
  decodeChars_encodeBytes bs h

/-- Witness for `transport_roundtrip` on the bytes of `"Hi"`. -/
theorem transport_roundtrip_witness :
    (∀ b ∈ [72, 105], b < 256)
    ∧ pyUrlsafeB64Decode (pyUrlsafeB64Encode [72, 105]) = some [72, 105] :=
  ⟨by decide, transport_roundtrip [72, 105] (by decide)⟩

/-! ## Body decoder: `parse_body`

The `try` block of `parse_body` is modelled as an `Option`-valued computation
`tryBody`; every Python operation in it that can raise maps to a `none`
(`get_next_part` exceptions, iterating a non-list or empty `parts` when
selecting `p`, a missing `body`/`data` key, a base64/unicode decode error).
`parse_body` consumes a `none` in its `except` branch, yielding the fixed
fallback string.  The informational `print` on a non-preferred type does not
affect the return value and is not modelled. -/

/-- UTF-8 bytes of an ASCII string (used for concrete decoded texts and the
fallback message; for ASCII the UTF-8 bytes are the character codes). -/
def strBytes (s : String) : List Nat := s.toList.map Char.toNat

/-- The fixed fallback text, as bytes. -/
def fallbackBody : List Nat := strBytes "Message body could not be retrieved."

/-- The acceptance set `types = ['text/html', 'text/plain']` of `parse_body`. -/
def types : List String := ["text/html", "text/plain"]

/-- The `while not found and i < depth` loop of `parse_body`: repeatedly calls
`get_next_part` (with default `negation=False`) until it reports success or
the fuel (`depth - i`) runs out.  On exhaustion the current `parts` list is
handed on with `found = False`; a `.single` at exhaustion only arises for
`depth = 0`, where the subsequent `for p in parts` over a dict raises
(`TypeError`/`NameError`), modelled as `none`. -/
def bodyLoop (allowed : List String) : Nat → PTree → Option (List Part × Bool)
  | 0, .single _ => none
  | 0, .plist ps => some (ps, false)
  | fuel + 1, cur =>
    (get_next_part cur false allowed).bind fun pr =>
      if pr.2 then some (pr.1, true)
      else bodyLoop allowed fuel (.plist pr.1)

/-- `for p in parts: if p['mimeType'] == prefer: break` — the first part of
the preferred type, else the last part iterated; `none` for the empty list,
where `p` stays unbound and the later `p['mimeType']` raises `NameError`. -/
def selectPart (prefer : String) : List Part → Option Part
  | [] => none
  | [p] => some p
  | p :: q :: rest =>
    if p.mimeType = prefer then some p else selectPart prefer (q :: rest)

/-- The fallible body of `parse_body`'s `try` block: walk, select, read
`body.data`, transport-decode. -/
def tryBody (payload : Part) (prefer : String) (depth : Nat) : Option (List Nat) :=
  (bodyLoop types depth (PTree.single payload)).bind fun pr =>
    (selectPart prefer pr.1).bind fun p =>
      p.bodyData.bind fun data =>
        pyUrlsafeB64Decode data

/-- Embedding of `gmail_query.parse_body` on a message's `payload` tree.
`Except.error` is the uncaught `raise Warning` for a `prefer` outside
`types`; every failure inside the `try` block is recovered with the fixed
fallback text. -/
def parse_body (payload : Part) (prefer : String) (depth : Nat) :
    Except String (List Nat) :=
  if types.contains prefer then
    match tryBody payload prefer depth with
    | some bytes => Except.ok bytes
    | none => Except.ok fallbackBody
  else
    Except.error "Can only search for text/plain or text/html."

theorem parse_body_of_tryBody_none (payload : Part) (prefer : String) (depth : Nat)
    (hp : types.contains prefer = true) (ht : tryBody payload prefer depth = none) :
    parse_body payload prefer depth = Except.ok fallbackBody := by
  unfold parse_body
  rw [if_pos hp, ht]

/-- C4: for an allowed preferred type, `parse_body` never raises — it always
returns a value, and whenever the body-resolution pipeline fails (missing
field, malformed tree, decode error) that value is exactly the fixed fallback
string. -/
theorem parse_body_never_raises (payload : Part) (prefer : String) (depth : Nat)
    (hp : prefer = "text/plain" ∨ prefer = "text/html") :
    (∃ bs, parse_body payload prefer depth = Except.ok bs)
    ∧ (tryBody payload prefer depth = none →
        parse_body payload prefer depth = Except.ok fallbackBody) := by
  have hp' : types.contains prefer = true := by
    rcases hp with h | h <;> simp [types, h]
  refine ⟨?_, parse_body_of_tryBody_none payload prefer depth hp'⟩
  unfold parse_body
  rw [if_pos hp']
  cases tryBody payload prefer depth <;> exact ⟨_, rfl⟩

/-- Witness for `parse_body_never_raises`: a malformed tree — a non-matching
node lacking the `parts` key — yields exactly the fallback text. -/
theorem parse_body_never_raises_witness :
    parse_body (Part.mk "application/pdf" none none) "text/plain" 10
      = Except.ok fallbackBody :=
  (parse_body_never_raises (Part.mk "application/pdf" none none) "text/plain" 10
    (Or.inl rfl)).2 (by decide)

/-! ### Trees without body payloads always fall back -/

mutual

/-- No node of the part (nor of its descendants) carries a `body.data`
payload. -/
def Part.noBody : Part → Bool
  | .mk _ b ps =>
    b.isNone && (match ps with
      | none => true
      | some t => PTree.noBody t)

/-- `Part.noBody` over a duck-typed child value. -/
def PTree.noBody : PTree → Bool
  | .single p => Part.noBody p
  | .plist ps => partsNoBody ps

/-- `Part.noBody` over a list of parts. -/
def partsNoBody : List Part → Bool
  | [] => true
  | p :: ps => Part.noBody p && partsNoBody ps

end

mutual

/-- No node of the part (nor of its descendants) has a content type in
`allowed`. -/
def Part.noneIn (allowed : List String) : Part → Bool
  | .mk t _ ps =>
    !(allowed.contains t) && (match ps with
      | none => true
      | some u => PTree.noneIn allowed u)

/-- `Part.noneIn` over a duck-typed child value. -/
def PTree.noneIn (allowed : List String) : PTree → Bool
  | .single p => Part.noneIn allowed p
  | .plist ps => partsNoneIn allowed ps

/-- `Part.noneIn` over a list of parts. -/
def partsNoneIn (allowed : List String) : List Part → Bool
  | [] => true
  | p :: ps => Part.noneIn allowed p && partsNoneIn allowed ps

end

theorem PTree_noBody_single (p : Part) :
    PTree.noBody (PTree.single p) = Part.noBody p := by
  simp only [PTree.noBody]

theorem PTree_noBody_plist (ps : List Part) :
    PTree.noBody (PTree.plist ps) = partsNoBody ps := by
  simp only [PTree.noBody]

theorem partsNoBody_cons (p : Part) (ps : List Part) :
    partsNoBody (p :: ps) = (Part.noBody p && partsNoBody ps) := by
  simp only [partsNoBody]

theorem Part_noBody_parts {mt : String} {b : Option String} {t : PTree}
    (h : Part.noBody (Part.mk mt b (some t)) = true) :
    b = none ∧ PTree.noBody t = true := by
  simp only [Part.noBody, Bool.and_eq_true, Option.isNone_iff_eq_none] at h
  exact h

theorem partsNoBody_mem {ps : List Part} {p : Part}
    (h : partsNoBody ps = true) (hm : p ∈ ps) : Part.noBody p = true := by
  induction ps with
  | nil => cases hm
  | cons q qs ih =>
    rw [partsNoBody_cons, Bool.and_eq_true] at h
    rw [List.mem_cons] at hm
    rcases hm with rfl | hm
    · exact h.1
    · exact ih h.2 hm

theorem partsNoBody_coerceList {t : PTree} (h : PTree.noBody t = true) :
    partsNoBody (coerceList t) = true := by
  cases t with
  | single p =>
    rw [PTree_noBody_single] at h
    simp only [coerceList, partsNoBody, h, Bool.and_self]
  | plist ps =>
    rw [PTree_noBody_plist] at h
    exact h

theorem noBody_get_next_part {cur : PTree} {allowed : List String}
    {parts : List Part} {found : Bool} (hc : PTree.noBody cur = true)
    (h : get_next_part cur false allowed = some (parts, found)) :
    partsNoBody parts = true := by
  cases cur with
  | single m =>
    simp only [get_next_part] at h
    by_cases hcrit : partCriteria false allowed m = true
    · rw [if_pos hcrit] at h
      injection h with h'
      injection h' with h1 _
      subst h1
      rw [PTree_noBody_single] at hc
      simp only [partsNoBody, hc, Bool.and_self]
    · rw [if_neg hcrit] at h
      cases m with
      | mk mt b ps =>
        cases hps : ps with
        | none => simp only [Part.parts, hps] at h; cases h
        | some t =>
          simp only [Part.parts, hps] at h
          injection h with h'
          injection h' with h1 _
          subst h1
          refine partsNoBody_coerceList ?_
          rw [PTree_noBody_single] at hc
          subst hps
          exact (Part_noBody_parts hc).2
  | plist ms =>
    simp only [get_next_part] at h
    rw [PTree_noBody_plist] at hc
    by_cases hany : ms.any (fun m => allowed.contains m.mimeType) = true
    · rw [if_pos hany] at h
      injection h with h'
      injection h' with h1 _
      subst h1
      exact hc
    · rw [if_neg hany] at h
      cases ms with
      | nil => cases h
      | cons m0 rest =>
        rw [partsNoBody_cons, Bool.and_eq_true] at hc
        cases m0 with
        | mk mt b ps =>
          cases hps : ps with
          | none => simp only [Part.parts, hps] at h; cases h
          | some t =>
            simp only [Part.parts, hps] at h
            injection h with h'
            injection h' with h1 _
            subst h1
            refine partsNoBody_coerceList ?_
            subst hps
            exact (Part_noBody_parts hc.1).2

theorem noBody_bodyLoop {allowed : List String} {fuel : Nat} {cur : PTree}
    {parts : List Part} {found : Bool} (hc : PTree.noBody cur = true)
    (h : bodyLoop allowed fuel cur = some (parts, found)) :
    partsNoBody parts = true := by
  induction fuel generalizing cur with
  | zero =>
    cases cur with
    | single p => cases h
    | plist ps =>
      injection h with h'
      injection h' with h1 _
      subst h1
      rw [PTree_noBody_plist] at hc
      exact hc
  | succ n ih =>
    rw [bodyLoop] at h
    cases hg : get_next_part cur false allowed with
    | none => rw [hg] at h; cases h
    | some pr =>
      obtain ⟨ps', f'⟩ := pr
      rw [hg, Option.some_bind] at h
      have hps' : partsNoBody ps' = true := noBody_get_next_part hc hg
      cases f' with
      | true =>
        simp only [if_pos] at h
        injection h with h'
        injection h' with h1 _
        subst h1
        exact hps'
      | false =>
        simp only [Bool.false_eq_true, if_false] at h
        exact ih (by rw [PTree_noBody_plist]; exact hps') h

theorem selectPart_mem {prefer : String} {ps : List Part} {p : Part}
    (h : selectPart prefer ps = some p) : p ∈ ps := by
  induction ps with
  | nil => cases h
  | cons q qs ih =>
    cases qs with
    | nil =>
      rw [selectPart] at h
      injection h with h'
      subst h'
      exact List.mem_cons_self q []
    | cons r rs =>
      rw [selectPart] at h
      by_cases hq : q.mimeType = prefer
      · rw [if_pos hq] at h
        injection h with h'
        subst h'
        exact List.mem_cons_self _ _
      · rw [if_neg hq] at h
        exact List.mem_cons_of_mem _ (ih h)

/-- C3 (amended): a tree with no node of an acceptable content type within
the depth bound *and no body payload on any node* makes `parse_body` return
the fixed fallback text rather than raise.  (Without the no-payload
condition the claim fails: see `parse_body_depth_exhausted_decodes_anyway`.) -/
theorem parse_body_not_found_fallback (payload : Part) (prefer : String) (depth : Nat)
    (hacc : Part.noneIn types payload = true)
    (hnb : Part.noBody payload = true)
    (hp : prefer = "text/plain" ∨ prefer = "text/html") :
    parse_body payload prefer depth = Except.ok fallbackBody := by
  have hp' : types.contains prefer = true := by
    rcases hp with h | h <;> simp [types, h]
  refine parse_body_of_tryBody_none payload prefer depth hp' ?_
  unfold tryBody
  cases hl : bodyLoop types depth (PTree.single payload) with
  | none => rfl
  | some pr =>
    obtain ⟨parts, found⟩ := pr
    have hparts : partsNoBody parts = true :=
      noBody_bodyLoop (by rw [PTree_noBody_single]; exact hnb) hl
    rw [Option.some_bind]
    cases hs : selectPart prefer parts with
    | none => rfl
    | some p =>
      rw [Option.some_bind]
      have hpnb : Part.noBody p = true := partsNoBody_mem hparts (selectPart_mem hs)
      cases p with
      | mk mt b ps =>
        have hb : b = none := by
          cases ps with
          | none =>
            simp only [Part.noBody, Bool.and_eq_true, Option.isNone_iff_eq_none] at hpnb
            exact hpnb.1
          | some t => exact (Part_noBody_parts hpnb).1
        simp only [Part.bodyData, hb, Option.none_bind]

/-- Witness for `parse_body_not_found_fallback`: a two-level multipart tree
with unacceptable types and no payloads falls back. -/
theorem parse_body_not_found_fallback_witness :
    parse_body
        (Part.mk "multipart/mixed" none
          (some (PTree.plist [Part.mk "image/png" none none])))
        "text/plain" 10
      = Except.ok fallbackBody :=
  parse_body_not_found_fallback _ "text/plain" 10 (by decide) (by decide) (Or.inl rfl)

/-- A chain of eleven `application/octet-stream` nodes whose deepest node
carries the payload `"aGk="` (base64 of `"hi"`). -/
def cexChain : Nat → Part
  | 0 => Part.mk "application/octet-stream" (some "aGk=") none
  | k + 1 => Part.mk "application/octet-stream" none (some (PTree.single (cexChain k)))

/-- C3 (counterexample): the claim as stated is false.  `cexChain 10` has no
acceptable node at all — the walker exhausts the depth bound without a match —
yet `parse_body` does not return the placeholder: it decodes the last
candidate part's payload (`"hi"`) and returns that. -/
theorem parse_body_depth_exhausted_decodes_anyway :
    Part.noneIn types (cexChain 10) = true
    ∧ parse_body (cexChain 10) "text/plain" 10 = Except.ok (strBytes "hi")
    ∧ parse_body (cexChain 10) "text/plain" 10 ≠ Except.ok fallbackBody := by
  have hval : parse_body (cexChain 10) "text/plain" 10 = Except.ok (strBytes "hi") := by
    rfl
  refine ⟨by decide, hval, ?_⟩
  rw [hval]
  intro h
  injection h with h'
  exact absurd h' (by decide)

/-! ## Message records and the thread aggregation passes

`query` stores one dict per message inside `data[thr_id]`; the fields are
built from the lower-cased header mapping (lines 161–175).  `full_text` is
attached during the aggregator's first pass (lines 177–207); the writer
(lines 217–227) writes exactly `full_text`.  `from` and `to` are Lean keywords, so
those fields are `fromAddr` and `toAddr` here. -/

/-- One message record (`data[thr_id][msg_id]`).  `body` holds the decoded
body text returned by `parse_body`. -/
structure MsgRecord where
  toAddr : String
  fromAddr : String
  cc : Option String
  subject : String
  thread_topic : Option String
  date : String
  body : String
  full_text : String
deriving DecidableEq

/-- Python's f-string rendering of an optional string: `str(None)` is the
text `"None"`. -/
def pyStr : Option String → String
  | none => "None"
  | some s => s

/-- Python's `str.lower()` on the ASCII header names, character by
character. -/
def lowerAscii (s : String) : String := String.mk (s.toList.map Char.toLower)

/-- The lower-cased header mapping of lines 161–163 (`last occurrence wins`,
as in a dict comprehension), queried at a lower-case key. -/
def headerGet (hs : List (String × String)) (k : String) : Option String :=
  (hs.reverse.find? (fun p => lowerAscii p.1 = k)).map (fun p => p.2)

/-- The dedented header block of the f-string at lines 195–202: six labelled
lines, each newline-terminated (the whitespace-only final line of the
f-string is normalized away by `textwrap.dedent`, leaving the trailing
newline of the Date line). -/
def headerBlock (r : MsgRecord) : String :=
  "**From:** " ++ r.fromAddr ++ "\n**To:** " ++ r.toAddr ++ "\n**CC:** " ++ pyStr r.cc ++
    "\n**Subject:** " ++ r.subject ++ "\n**Thread Topic:** " ++ pyStr r.thread_topic ++
    "\n**Date:** " ++ r.date ++ "\n"

/-- `full_text = dedent(...) + f"\n\n{body}"` (lines 204–205). -/
def renderFullText (r : MsgRecord) : String := headerBlock r ++ "\n\n" ++ r.body

/-- The rendering described by the specification: the header block followed
by a single blank line and then the body. -/
def claimedRender (r : MsgRecord) : String := headerBlock r ++ "\n" ++ r.body

/-- The writer's file content for a record: `f.write(data[thr_id][msg_id]['full_text'])`. -/
def writeContent (r : MsgRecord) : String := r.full_text

/-- Lines 181–189: `list(set(...))`, drop `None`, then `''` if empty else the
first element.  Python's set order is unspecified; this pins the
first-occurrence order, which coincides with the source whenever at most one
distinct non-null value exists — the only situations the specification (and
the claims) describe. -/
def threadTopicVal (l : List MsgRecord) : String :=
  match (l.map MsgRecord.thread_topic).dedup.filterMap id with
  | [] => ""
  | t :: _ => t

/-- One iteration of the first pass for the record at the current position:
substitute the thread topic when the record's own is `None`, then render and
attach `full_text`.  `processed ++ r :: rest` is the thread's current state
(earlier records already updated in place). -/
def pass1Step (processed : List MsgRecord) (r : MsgRecord)
    (rest : List MsgRecord) : MsgRecord :=
  let t := threadTopicVal (processed ++ r :: rest)
  let r1 := if r.thread_topic = none then { r with thread_topic := some t } else r
  { r1 with full_text := renderFullText r1 }

/-- The first pass over one thread's records, left to right, mutating in
place (modelled by the `processed` accumulator). -/
def pass1Go : List MsgRecord → List MsgRecord → List MsgRecord
  | processed, [] => processed
  | processed, r :: rest => pass1Go (processed ++ [pass1Step processed r rest]) rest

/-- The aggregator's first pass over one thread (lines 177–207).  The source
iterates over all messages of all threads, but each iteration reads and
writes only the current message's own thread, so per-thread slices evolve
independently. -/
def pass1 (l : List MsgRecord) : List MsgRecord := pass1Go [] l

theorem threadTopicVal_all_v {l : List MsgRecord} {v : String}
    (h : ∀ r ∈ l, r.thread_topic = none ∨ r.thread_topic = some v) :
    ∀ x ∈ (l.map MsgRecord.thread_topic).dedup.filterMap id, x = v := by
  intro x hx
  rw [List.mem_filterMap] at hx
  obtain ⟨a, ha, hid⟩ := hx
  rw [List.mem_dedup, List.mem_map] at ha
  obtain ⟨r, hr, hra⟩ := ha
  rcases h r hr with h0 | h0 <;> rw [h0] at hra
  · rw [← hra] at hid; cases hid
  · rw [← hra] at hid
    injection hid with h1
    exact h1.symm

theorem threadTopicVal_eq_of {l : List MsgRecord} {v : String}
    (h : ∀ r ∈ l, r.thread_topic = none ∨ r.thread_topic = some v)
    (hv : ∃ r ∈ l, r.thread_topic = some v) :
    threadTopicVal l = v := by
  have hmem : v ∈ (l.map MsgRecord.thread_topic).dedup.filterMap id := by
    obtain ⟨r, hr, hrt⟩ := hv
    rw [List.mem_filterMap]
    exact ⟨some v, by rw [List.mem_dedup, List.mem_map]; exact ⟨r, hr, hrt⟩, rfl⟩
  unfold threadTopicVal
  cases hfm : (l.map MsgRecord.thread_topic).dedup.filterMap id with
  | nil => rw [hfm] at hmem; cases hmem
  | cons t ts =>
    exact (threadTopicVal_all_v h t (by rw [hfm]; exact List.mem_cons_self t ts)).symm ▸ rfl

theorem threadTopicVal_eq_empty {l : List MsgRecord}
    (h : ∀ r ∈ l, r.thread_topic = none ∨ r.thread_topic = some "") :
    threadTopicVal l = "" := by
  unfold threadTopicVal
  cases hfm : (l.map MsgRecord.thread_topic).dedup.filterMap id with
  | nil => rfl
  | cons t ts =>
    exact threadTopicVal_all_v h t (by rw [hfm]; exact List.mem_cons_self t ts)

theorem pass1Step_thread_topic (processed : List MsgRecord) (r : MsgRecord)
    (rest : List MsgRecord) :
    (pass1Step processed r rest).thread_topic =
      if r.thread_topic = none
      then some (threadTopicVal (processed ++ r :: rest))
      else r.thread_topic := by
  unfold pass1Step
  by_cases h : r.thread_topic = none <;> simp [h]

theorem pass1Go_topic_some (v : String) :
    ∀ rest processed : List MsgRecord,
      (∀ r ∈ processed, r.thread_topic = some v) →
      (∀ r ∈ rest, r.thread_topic = none ∨ r.thread_topic = some v) →
      (∃ r ∈ processed ++ rest, r.thread_topic = some v) →
      ∀ r ∈ pass1Go processed rest, r.thread_topic = some v := by
  intro rest
  induction rest with
  | nil =>
    intro processed hp _ _ r hr
    exact hp r hr
  | cons q qs ih =>
    intro processed hp hrest hex
    have hall : ∀ r ∈ processed ++ q :: qs,
        r.thread_topic = none ∨ r.thread_topic = some v := by
      intro r hr
      rw [List.mem_append] at hr
      rcases hr with hr | hr
      · exact Or.inr (hp r hr)
      · exact hrest r hr
    have ht : threadTopicVal (processed ++ q :: qs) = v :=
      threadTopicVal_eq_of hall hex
    have hstep : (pass1Step processed q qs).thread_topic = some v := by
      rw [pass1Step_thread_topic]
      rcases hrest q (List.mem_cons_self q qs) with h0 | h0
      · rw [if_pos h0, ht]
      · rw [h0]
        simp
    rw [pass1Go]
    refine ih (processed ++ [pass1Step processed q qs]) ?_ ?_ ?_
    · intro r hr
      rw [List.mem_append, List.mem_singleton] at hr
      rcases hr with hr | rfl
      · exact hp r hr
      · exact hstep
    · intro r hr
      exact hrest r (List.mem_cons_of_mem q hr)
    · refine ⟨pass1Step processed q qs, ?_, hstep⟩
      rw [List.mem_append, List.mem_append, List.mem_singleton]
      exact Or.inl (Or.inr rfl)

theorem pass1Go_topic_empty :
    ∀ rest processed : List MsgRecord,
      (∀ r ∈ processed, r.thread_topic = some "") →
      (∀ r ∈ rest, r.thread_topic = none) →
      ∀ r ∈ pass1Go processed rest, r.thread_topic = some "" := by
  intro rest
  induction rest with
  | nil =>
    intro processed hp _ r hr
    exact hp r hr
  | cons q qs ih =>
    intro processed hp hrest
    have hall : ∀ r ∈ processed ++ q :: qs,
        r.thread_topic = none ∨ r.thread_topic = some "" := by
      intro r hr
      rw [List.mem_append] at hr
      rcases hr with hr | hr
      · exact Or.inr (hp r hr)
      · exact Or.inl (hrest r hr)
    have ht : threadTopicVal (processed ++ q :: qs) = "" :=
      threadTopicVal_eq_empty hall
    have hstep : (pass1Step processed q qs).thread_topic = some "" := by
      rw [pass1Step_thread_topic, if_pos (hrest q (List.mem_cons_self q qs)), ht]
    rw [pass1Go]
    refine ih (processed ++ [pass1Step processed q qs]) ?_ ?_
    · intro r hr
      rw [List.mem_append, List.mem_singleton] at hr
      rcases hr with hr | rfl
      · exact hp r hr
      · exact hstep
    · intro r hr
      exact hrest r (List.mem_cons_of_mem q hr)

/-- C6: after the first pass over a thread in which every record's
thread-topic is either null or a single value `v` and at least one record
carries `v` — in particular when exactly one record carries `v` and all
others are null — every record of the thread ends with thread-topic `v`;
and over a thread in which no record carries a thread-topic, every record
ends with the empty string. -/
theorem pass1_thread_topic (l : List MsgRecord) (v : String) :
    ((∀ r ∈ l, r.thread_topic = none ∨ r.thread_topic = some v) →
      (∃ r ∈ l, r.thread_topic = some v) →
      ∀ r ∈ pass1 l, r.thread_topic = some v)
    ∧ ((∀ r ∈ l, r.thread_topic = none) →
      ∀ r ∈ pass1 l, r.thread_topic = some "") := by
  constructor
  · intro h hv
    exact pass1Go_topic_some v l [] (by intro r hr; cases hr) h
      (by rw [List.nil_append]; exact hv)
  · intro h
    exact pass1Go_topic_empty l [] (by intro r hr; cases hr) h

/-- A record with no thread topic of its own. -/
def recNoTopic : MsgRecord :=
  MsgRecord.mk "b@x.com" "a@x.com" none "Hello" none
    "Tuesday Jan 02, 2018, 05:00 AM EST" "Hi there" ""

/-- The same record carrying the thread topic `"Budget"`. -/
def recWithTopic : MsgRecord := { recNoTopic with thread_topic := some "Budget" }

/-- Witness for `pass1_thread_topic`: a two-message thread with exactly one
non-null thread topic propagates it to both records, and an all-null thread
gets the empty string. -/
theorem pass1_thread_topic_witness :
    (∀ r ∈ pass1 [recNoTopic, recWithTopic], r.thread_topic = some "Budget")
    ∧ (∀ r ∈ pass1 [recNoTopic, recNoTopic], r.thread_topic = some "") :=
  ⟨(pass1_thread_topic [recNoTopic, recWithTopic] "Budget").1 (by decide) (by decide),
   (pass1_thread_topic [recNoTopic, recNoTopic] "").2 (by decide)⟩

/-! ## Rendering and the writer -/

theorem renderFullText_set_full_text (r : MsgRecord) (s : String) :
    renderFullText { r with full_text := s } = renderFullText r := rfl

theorem pass1Go_full_text :
    ∀ rest processed : List MsgRecord,
      (∀ r ∈ processed, r.full_text = renderFullText r) →
      ∀ r ∈ pass1Go processed rest, r.full_text = renderFullText r := by
  intro rest
  induction rest with
  | nil =>
    intro processed hp r hr
    exact hp r hr
  | cons q qs ih =>
    intro processed hp
    rw [pass1Go]
    refine ih _ ?_
    intro r hr
    rw [List.mem_append, List.mem_singleton] at hr
    rcases hr with hr | rfl
    · exact hp r hr
    · rfl

/-- C9 (amended): every record leaving the first pass has as its written file
content the fixed-order labelled header block (From, To, CC, Subject, Thread
Topic, Date), the block's trailing newline, then *two* appended newlines (so
two blank lines, not one — the dedented f-string already ends with a newline
and the source appends `"\n\n" + body`), then the decoded body. -/
theorem pass1_full_text (l : List MsgRecord) (r : MsgRecord) (h : r ∈ pass1 l) :
    writeContent r =
      "**From:** " ++ r.fromAddr ++ "\n**To:** " ++ r.toAddr ++ "\n**CC:** "
        ++ pyStr r.cc ++ "\n**Subject:** " ++ r.subject ++ "\n**Thread Topic:** "
        ++ pyStr r.thread_topic ++ "\n**Date:** " ++ r.date ++ "\n" ++ "\n\n"
        ++ r.body := by
  have h1 : r.full_text = renderFullText r :=
    pass1Go_full_text l [] (by intro x hx; cases hx) r h
  unfold writeContent
  rw [h1]
  rfl

/-- The record produced by the first pass on the one-message thread
`[recWithTopic]`. -/
def recOut : MsgRecord := { recWithTopic with full_text := renderFullText recWithTopic }

/-- Witness for `pass1_full_text` on the concrete one-message thread. -/
theorem pass1_full_text_witness :
    recOut ∈ pass1 [recWithTopic]
    ∧ writeContent recOut =
      "**From:** " ++ recOut.fromAddr ++ "\n**To:** " ++ recOut.toAddr ++ "\n**CC:** "
        ++ pyStr recOut.cc ++ "\n**Subject:** " ++ recOut.subject ++ "\n**Thread Topic:** "
        ++ pyStr recOut.thread_topic ++ "\n**Date:** " ++ recOut.date ++ "\n" ++ "\n\n"
        ++ recOut.body :=
  ⟨by decide, pass1_full_text [recWithTopic] recOut (by decide)⟩

/-- C9 (counterexample): the rendering the specification describes — header
block, a single blank line, then the body — differs from what the source
writes: on the thread `[recWithTopic]` the written content is not the claimed
rendering of the written record (there are two blank lines before the body,
not one). -/
theorem written_content_ne_claimed_render :
    (pass1 [recWithTopic]).map writeContent ≠ (pass1 [recWithTopic]).map claimedRender := by
  decide

/-- C10: a message whose header list has no `cc` entry gets `None` (Python's
rendering of the null value) interpolated into the CC slot, so its rendered
full text contains the literal line `**CC:** None`. -/
theorem render_cc_none (hs : List (String × String)) (r : MsgRecord)
    (hcc : ∀ p ∈ hs, lowerAscii p.1 ≠ "cc") (hr : r.cc = headerGet hs "cc") :
    ∃ a b, renderFullText r = a ++ "\n**CC:** None\n" ++ b := by
  have hccnone : headerGet hs "cc" = none := by
    unfold headerGet
    rw [List.find?_eq_none.mpr (by
      intro p hp
      simp only [decide_eq_true_eq]
      exact hcc p (List.mem_reverse.mp hp))]
    rfl
  rw [hccnone] at hr
  have key : ∀ X : String,
      "\n**CC:** " ++ ("None" ++ ("\n**Subject:** " ++ X))
        = "\n**CC:** None\n" ++ ("**Subject:** " ++ X) := by
    intro X
    have k1 : "\n**CC:** " ++ ("None" ++ ("\n**Subject:** " ++ X))
        = "\n**CC:** " ++ "None" ++ "\n**Subject:** " ++ X := by
      rw [← String.append_assoc, ← String.append_assoc]
    have k2 : "\n**CC:** None\n" ++ ("**Subject:** " ++ X)
        = "\n**CC:** None\n" ++ "**Subject:** " ++ X := by
      rw [← String.append_assoc]
    rw [k1, k2]
    rfl
  refine ⟨"**From:** " ++ r.fromAddr ++ "\n**To:** " ++ r.toAddr,
    "**Subject:** " ++ r.subject ++ "\n**Thread Topic:** " ++ pyStr r.thread_topic
      ++ "\n**Date:** " ++ r.date ++ "\n" ++ "\n\n" ++ r.body, ?_⟩
  unfold renderFullText headerBlock
  rw [hr]
  show "**From:** " ++ r.fromAddr ++ "\n**To:** " ++ r.toAddr ++ "\n**CC:** "
      ++ "None" ++ "\n**Subject:** " ++ r.subject ++ "\n**Thread Topic:** "
      ++ pyStr r.thread_topic ++ "\n**Date:** " ++ r.date ++ "\n" ++ "\n\n" ++ r.body = _
  simp only [String.append_assoc]
  exact congrArg
    (fun z => "**From:** " ++ (r.fromAddr ++ ("\n**To:** " ++ (r.toAddr ++ z)))) (key _)

/-- Witness for `render_cc_none`: a header list with no `cc` entry. -/
theorem render_cc_none_witness :
    ∃ a b, renderFullText recNoTopic = a ++ "\n**CC:** None\n" ++ b :=
  render_cc_none [("Subject", "Hello"), ("From", "a@x.com")] recNoTopic
    (by decide) (by decide)

/-! ## Dates and the search-query string

Calendar dates model `datetime.date`.  `parseIsoDate` models
`dateutil.parser.parse(...).date()` on ISO `YYYY-MM-DD` strings — the format
the configuration surface documents for `begin_date`/`end_date`; `none`
stands for the uncaught parse error that aborts `query`. -/

/-- Python's `str.split(sep)` for a one-character separator, on the
character list. -/
def splitChars (c : Char) : List Char → List (List Char)
  | [] => [[]]
  | x :: xs =>
    match splitChars c xs with
    | [] => [[]]
    | g :: gs => if x = c then [] :: g :: gs else (x :: g) :: gs

/-- Python's `str.split(sep)` for a one-character separator. -/
def pySplit (sep : Char) (s : String) : List String :=
  (splitChars sep s.toList).map String.mk

/-- `int(s)` on a non-empty all-digit string, else `none`. -/
def digitsToNat? (l : List Char) : Option Nat :=
  if l = [] then none
  else if l.all (fun c => c.isDigit) then
    some (l.foldl (fun acc c => acc * 10 + (c.toNat - 48)) 0)
  else none

/-- A calendar date. -/
structure Date where
  year : Nat
  month : Nat
  day : Nat
deriving DecidableEq

/-- Gregorian leap year. -/
def isLeap (y : Nat) : Bool := (y % 4 == 0 && y % 100 != 0) || y % 400 == 0

/-- Length of a month. -/
def daysInMonth (y m : Nat) : Nat :=
  if m = 2 then (if isLeap y then 29 else 28)
  else if m = 4 ∨ m = 6 ∨ m = 9 ∨ m = 11 then 30
  else 31

/-- `d + datetime.timedelta(days=1)`. -/
def nextDay (d : Date) : Date :=
  if d.day < daysInMonth d.year d.month then ⟨d.year, d.month, d.day + 1⟩
  else if d.month < 12 then ⟨d.year, d.month + 1, 1⟩
  else ⟨d.year + 1, 1, 1⟩

/-- Two-digit zero padding, as in `str(datetime.date)`. -/
def pad2 (n : Nat) : String := if n < 10 then "0" ++ toString n else toString n

/-- `str(d)` for a `datetime.date` (four-digit years assumed). -/
def isoStr (d : Date) : String :=
  toString d.year ++ "-" ++ pad2 d.month ++ "-" ++ pad2 d.day

/-- `dateutil.parser.parse(s).date()` on an ISO date string; `none` models
the parser rejecting the string. -/
def parseIsoDate (s : String) : Option Date :=
  match pySplit '-' s with
  | [ys, ms, ds] =>
    match digitsToNat? ys.toList, digitsToNat? ms.toList, digitsToNat? ds.toList with
    | some y, some m, some d =>
      if 1 ≤ m ∧ m ≤ 12 ∧ 1 ≤ d ∧ d ≤ daysInMonth y m then some ⟨y, m, d⟩ else none
    | _, _, _ => none
  | _ => none

/-- The search-query construction at the top of `query` (lines 127–140),
given the run date `today`.  `none` models an uncaught exception.  The
`else` branch for an explicit end date reproduces the source's
`date_parse(end_date).date() + 1`: adding an `int` to a `datetime.date`
raises `TypeError`, so after a successful parse the construction still
fails — only `end_date='today'` (which uses `+ timedelta(days=1)`) reaches
the join. -/
def buildQuery (today : Date) (begin_date end_date : String)
    (label : Option String) (g_query : Option String)
    (att_get : Bool) (max_size : Nat) : Option String :=
  (parseIsoDate begin_date).bind fun bd =>
    (if end_date = "today" then some (isoStr (nextDay today))
     else (parseIsoDate end_date).bind fun _ => none).bind fun ed =>
      let q := ["after:" ++ isoStr bd, "before:" ++ ed]
      let q := q ++ (match label with
        | some lab => ["label:" ++ lowerAscii lab]
        | none => [])
      let q := q ++ (match g_query with
        | some g => [g]
        | none => [])
      let q := q ++ (if att_get then ["smaller:" ++ toString max_size] else [])
      some (String.intercalate " " q)

/-- C8: evaluating the query construction.  With `end_date='today'` on a run
dated 2018-01-02 the claimed string `after:2018-01-01 before:2018-01-03` is
produced, and the optional clauses are joined with spaces in order; but for
an explicit ISO end date — which the claim and the docstring say is
accepted — the source raises `TypeError` (`datetime.date + int`), so no
query string is ever built. -/
theorem buildQuery_today_works_iso_end_raises :
    buildQuery ⟨2018, 1, 2⟩ "2018-01-01" "today" none none false (20 * 1024 * 1024)
      = some "after:2018-01-01 before:2018-01-03"
    ∧ buildQuery ⟨2018, 1, 2⟩ "2018-01-01" "today" (some "Work") (some "from:boss")
        true 1000
      = some "after:2018-01-01 before:2018-01-03 label:work from:boss smaller:1000"
    ∧ buildQuery ⟨2018, 1, 2⟩ "2018-01-01" "2018-01-05" none none false
        (20 * 1024 * 1024)
      = none := by
  refine ⟨by decide, by decide, by decide⟩

/-! ## The second pass: thread representative fields -/

/-- Three-letter month abbreviations of `strftime('%b')`. -/
def monthNum (s : String) : Option Nat :=
  match s with
  | "Jan" => some 1
  | "Feb" => some 2
  | "Mar" => some 3
  | "Apr" => some 4
  | "May" => some 5
  | "Jun" => some 6
  | "Jul" => some 7
  | "Aug" => some 8
  | "Sep" => some 9
  | "Oct" => some 10
  | "Nov" => some 11
  | "Dec" => some 12
  | _ => none

/-- `str(date_parse(s).date())` for a string `s` in the record builder's
`strftime` format `"%A %b %d, %Y, %I:%M %p %Z"` (for example
`"Tuesday Jan 02, 2018, 05:00 AM EST"`): extract the calendar date and
render it as ISO `YYYY-MM-DD`; `none` models a parse failure, which in the
source is an uncaught exception. -/
def pyDateToIso (s : String) : Option String :=
  match pySplit ' ' s with
  | [_wd, mon, dayc, yearc, _hm, _ap, _tz] =>
    (monthNum mon).bind fun m =>
      match dayc.toList.getLast?, yearc.toList.getLast? with
      | some ',', some ',' =>
        (digitsToNat? dayc.toList.dropLast).bind fun d =>
          (digitsToNat? yearc.toList.dropLast).bind fun y =>
            some (toString y ++ "-" ++ pad2 m ++ "-" ++ pad2 d)
      | _, _ => none
  | _ => none

/-- Lines 210–214 for one thread: the representative "first" message is the
record at the last position in insertion order; `first_subject` is its
subject and `first_date` the ISO date extracted from its formatted `date`
field. -/
def firstFields (l : List MsgRecord) : Option (String × String) :=
  l.getLast?.bind fun m => (pyDateToIso m.date).map fun d => (m.subject, d)

/-- C7 (amended): for a non-empty thread the representative message is the
last record in insertion order, the thread's derived subject equals that
record's subject, and the derived date is the ISO calendar date extracted
from that record's formatted date field (not the date field itself). -/
theorem firstFields_last_record (l : List MsgRecord) (m : MsgRecord) (d : String)
    (hl : l.getLast? = some m) (hd : pyDateToIso m.date = some d) :
    firstFields l = some (m.subject, d) := by
  unfold firstFields
  rw [hl, Option.some_bind, hd]
  rfl

/-- Witness for `firstFields_last_record` on a two-message thread. -/
theorem firstFields_last_record_witness :
    [recWithTopic, recNoTopic].getLast? = some recNoTopic
    ∧ pyDateToIso recNoTopic.date = some "2018-01-02"
    ∧ firstFields [recWithTopic, recNoTopic] = some ("Hello", "2018-01-02") :=
  ⟨by decide, by decide,
   firstFields_last_record [recWithTopic, recNoTopic] recNoTopic "2018-01-02"
    (by decide) (by decide)⟩

/-- C7 (counterexample): the thread-level date does *not* equal the
representative message's own date field: the derived value is the ISO
calendar date `2018-01-02`, while the record's date field is the full
formatted timestamp. -/
theorem firstFields_date_ne_record_date :
    firstFields [recNoTopic] = some ("Hello", "2018-01-02")
    ∧ "2018-01-02" ≠ recNoTopic.date := by
  refine ⟨by decide, by decide⟩

end GmailDownload
